import Mathlib

/-!
Verification of the flowcore-io/time-uuid library.

Shallow embedding of `src/lib/uuid.ts` and `src/lib/time-uuid.ts`.

Buffers are modelled as `List Nat`, one entry per byte (entries produced by
the generation functions are always `< 256`).  JavaScript strings are
modelled as `List Char`.  The `Long` (64-bit) arithmetic of `writeTime` is
modelled on `Int` with an explicit `% 2 ^ 64`, interpreting the resulting
bit pattern as the non-negative Euclidean remainder.  The process-wide
mutable counters (`_ticks`, `_ticksForCurrentTime`, `_lastTimestamp`) are
modelled by explicit state passing.
-/

/-- Constant `_unixToGregorian` from `time-uuid.ts`: Oct 15, 1582 in
milliseconds since the Unix epoch. -/
def _unixToGregorian : Int := 12219292800000

/-- Constant `_ticksInMs` from `time-uuid.ts`: 10,000 ticks in a millisecond. -/
def _ticksInMs : Nat := 10000

/-- Constant `minNodeId = Buffer.from("808080808080", "hex")`. -/
def minNodeId : List Nat := [128, 128, 128, 128, 128, 128]

/-- Constant `minClockId = Buffer.from("8080", "hex")`. -/
def minClockId : List Nat := [128, 128]

/-- Constant `maxNodeId = Buffer.from("7f7f7f7f7f7f", "hex")`. -/
def maxNodeId : List Nat := [127, 127, 127, 127, 127, 127]

/-- Constant `maxClockId = Buffer.from("7f7f", "hex")`. -/
def maxClockId : List Nat := [127, 127]

/-- Helper `writeTime(buffer, time, ticks)` from `time-uuid.ts`: the 64-bit
value `(time + _unixToGregorian) * 10000 + ticks` is computed with `Long`
(wrap-around 64-bit) arithmetic; its low 32 bits are written big-endian at
bytes 0-3 (`writeUInt32BE`), the low 16 bits of the high word at bytes 4-5
and the high 16 bits of the high word at bytes 6-7 (`writeUInt16BE`).
Returns the 8 written bytes. -/
def writeTime (time : Int) (ticks : Int) : List Nat :=
  let val : Nat := (((time + _unixToGregorian) * 10000 + ticks) % (2 ^ 64 : Int)).toNat
  let lo := val % 2 ^ 32
  let hi := val / 2 ^ 32
  [lo / 2 ^ 24 % 256, lo / 2 ^ 16 % 256, lo / 2 ^ 8 % 256, lo % 256,
   hi / 2 ^ 8 % 256, hi % 256,
   hi / 2 ^ 24 % 256, hi / 2 ^ 16 % 256]

/-- Helper `generateBuffer(date, ticks, nodeId, clockId)` from `time-uuid.ts`
for a resolved time and ticks value: `writeTime` fills bytes 0-7, the clock
id is copied to offset 8 and the node id to offset 10, then byte 6's top
nibble is cleared and set to version 1 (`& 0x0f`, `| 0x10`) and byte 8's top
two bits are cleared and set to the IETF variant (`& 0x3f`, `| 0x80`).
`getNodeId`/`getClockId` validate `nodeId.length = 6` and
`clockId.length = 2` before this point; theorems carry those lengths as
hypotheses. -/
def generateBuffer (time : Int) (ticks : Int) (nodeId clockId : List Nat) : List Nat :=
  let b := writeTime time ticks ++ clockId ++ nodeId
  let b1 := b.set 6 (b.getD 6 0 % 16 + 16)
  b1.set 8 (b1.getD 8 0 % 64 + 128)

/-- The 60-bit timestamp value read back by `TimeUuid.getDatePrecision`:
`timeLow = readUInt32BE(0)` and
`timeHigh = (b4 & 0xff) << 8 | (b5 & 0xff) | (b6 & 0x0f) << 24 | (b7 & 0xff) << 16`;
`Long.fromBits(timeLow, timeHigh)` equals `timeHigh * 2^32 + timeLow`
because `timeHigh < 2^28` keeps the sign bit clear. -/
def timestampOf (b : List Nat) : Nat :=
  let timeLow := b.getD 0 0 * 2 ^ 24 + b.getD 1 0 * 2 ^ 16 + b.getD 2 0 * 2 ^ 8 + b.getD 3 0
  let timeHigh := b.getD 4 0 % 256 * 2 ^ 8 + b.getD 5 0 % 256 +
    b.getD 6 0 % 16 * 2 ^ 24 + b.getD 7 0 % 256 * 2 ^ 16
  timeHigh * 2 ^ 32 + timeLow

/-- `TimeUuid.getDatePrecision()`: `ticks = val % 10000`,
`date = new Date(val / 10000 - _unixToGregorian)` (millisecond value of the
date, as an integer). -/
def getDatePrecision (b : List Nat) : Int × Int :=
  ((timestampOf b : Int) / 10000 - _unixToGregorian, (timestampOf b : Int) % 10000)

/-- `TimeUuid.getNodeId()`: `buffer.subarray(10)`. -/
def getNodeId (b : List Nat) : List Nat := b.drop 10

/-- `TimeUuid.getClockId()`: `buffer.subarray(8, 10)`. -/
def getClockId (b : List Nat) : List Nat := (b.drop 8).take 2

/-- `TimeUuid.getBefore()`: re-generate from the decoded date with
`ticks - 1` and the same node and clock id.  The `ticks - 1` argument is a
number `< 10000` (possibly `-1`), so `getTicks` passes it through unchanged
and no process-wide counter is consulted. -/
def getBefore (b : List Nat) : List Nat :=
  generateBuffer (getDatePrecision b).1 ((getDatePrecision b).2 - 1) (getNodeId b) (getClockId b)

/-- One increment of the process-wide `_ticks` counter in `getTicks`:
`_ticks++; if (_ticks >= _ticksInMs) _ticks = 0`. -/
def tickStep (s : Nat) : Nat := if _ticksInMs ≤ s + 1 then 0 else s + 1

/-- Helper `getTicks(ticks)` from `time-uuid.ts`, with the process-wide
`_ticks` counter state `s` made explicit.  A missing argument (`none`) or a
numeric argument `≥ _ticksInMs` advances the counter and uses its new value;
any other numeric argument (including negative ones) is used as-is.
Returns (new counter state, resolved ticks). -/
def getTicksStep (s : Nat) (ticks : Option Int) : Nat × Int :=
  match ticks with
  | some k => if k < (_ticksInMs : Int) then (s, k) else (tickStep s, (tickStep s : Int))
  | none => (tickStep s, (tickStep s : Int))

/-- A sequence of `n` calls `new TimeUuid(date, undefined, nodeId, clockId)`
with the same explicit date `t` and no explicit ticks, starting from the
initial `_ticks = 0` state (`getTimeWithTicks` takes the explicit-date
branch and resolves ticks through `getTicks(undefined)`).  Component `.1` is
the `_ticks` counter after `n` calls; component `.2` is the buffer produced
by the `n`-th call (`n ≥ 1`). -/
def explicitSeq (t : Int) (node clock : List Nat) : Nat → Nat × List Nat
  | 0 => (0, [])
  | n + 1 =>
    let s := (explicitSeq t node clock n).1
    let r := getTicksStep s none
    (r.1, generateBuffer t r.2 node clock)

/-- The "now" branch of `getTimeWithTicks` from `time-uuid.ts`, with the
process-wide state (`_lastTimestamp`, `_ticksForCurrentTime`) explicit and
the wall clock reading `now` passed in:
`_ticksForCurrentTime++; if (_ticksForCurrentTime > _ticksInMs || time > _lastTimestamp) { _ticksForCurrentTime = 0; _lastTimestamp = time }`.
Returns ((new `_lastTimestamp`, new `_ticksForCurrentTime`), the ticks value
assigned to this call).  The assigned value is then passed through
`getTicks`, which keeps it whenever it is `< _ticksInMs`. -/
def getTimeWithTicksNowPath (lastTimestamp ticksForCurrentTime now : Nat) :
    (Nat × Nat) × Nat :=
  let c := ticksForCurrentTime + 1
  if _ticksInMs < c ∨ lastTimestamp < now then ((now, 0), 0) else ((lastTimestamp, c), c)

/-- Initial process-wide state `(_lastTimestamp, _ticksForCurrentTime)`,
both declared `= 0` in `time-uuid.ts`. -/
def initialNowState : Nat × Nat := (0, 0)

/-- The state of the "now" counter after `m` further calls all observing the
same wall-clock millisecond `T`, starting from the state `(T, 0)` left by
the first call observed after the millisecond boundary. -/
def nowStateIter (T : Nat) : Nat → Nat × Nat
  | 0 => (T, 0)
  | m + 1 => (getTimeWithTicksNowPath (nowStateIter T m).1 (nowStateIter T m).2 T).1

/-- Lowercase hex digit of a value `< 16`, as produced by
`Buffer.toString("hex")`. -/
def hexDigitChar (n : Nat) : Char := if n < 10 then Char.ofNat (48 + n) else Char.ofNat (87 + n)

/-- `buffer.toString("hex")` from `Uuid.toString`: two lowercase hex digits
per byte. -/
def bufferToHex (b : List Nat) : List Char :=
  b.foldr (fun x acc => hexDigitChar (x / 16) :: hexDigitChar (x % 16) :: acc) []

/-- `Uuid.toString()`: the 32-character hex form with hyphens inserted after
`substr(0,8)`, `substr(8,4)`, `substr(12,4)` and `substr(16,4)`. -/
def uuidToString (b : List Nat) : List Char :=
  let h := bufferToHex b
  h.take 8 ++ '-' :: ((h.drop 8).take 4) ++ '-' :: ((h.drop 12).take 4) ++
    '-' :: ((h.drop 16).take 4) ++ '-' :: ((h.drop 20).take 12)

/-- Value of one hex digit character, upper or lower case (the hex decoder of
`Buffer.from(_, "hex")` accepts both cases). -/
def hexVal (c : Char) : Option Nat :=
  if '0' ≤ c ∧ c ≤ '9' then some (c.toNat - 48)
  else if 'a' ≤ c ∧ c ≤ 'f' then some (c.toNat - 87)
  else if 'A' ≤ c ∧ c ≤ 'F' then some (c.toNat - 55)
  else none

/-- `Buffer.from(string, "hex")` in Node/Deno: decode complete two-digit hex
pairs from the left, stopping (without error) at the first character that is
not a hex digit or at a trailing incomplete pair. -/
def hexDecodePairs : List Char → List Nat
  | c1 :: c2 :: rest =>
    match hexVal c1, hexVal c2 with
    | some h, some l => (16 * h + l) :: hexDecodePairs rest
    | _, _ => []
  | _ => []

/-- `Uuid.fromString(value)`: reject strings whose length is not 36; strip
every hyphen (`value.replace` with the global hyphen regex); hex-decode; the
`Uuid` constructor
then rejects any buffer whose length is not 16. -/
def uuidFromString (s : List Char) : Option (List Nat) :=
  if s.length ≠ 36 then none
  else
    let stripped := s.filter (fun c => c != '-')
    let buf := hexDecodePairs stripped
    if buf.length = 16 then some buf else none

/-- A character that the hex decoder accepts. -/
def isHexChar (c : Char) : Bool := (hexVal c).isSome

/-- A lowercase hex digit character. -/
def isLowerHexChar (c : Char) : Bool :=
  (decide ('0' ≤ c) && decide (c ≤ '9')) || (decide ('a' ≤ c) && decide (c ≤ 'f'))

/-- Canonical hyphenated UUID layout: 8-4-4-4-12 groups (hyphens at offsets
8, 13, 18, 23 of a 36-character string) whose other 32 characters all
satisfy `p`. -/
def canonicalWith (p : Char → Bool) (s : List Char) : Prop :=
  ∃ A B C D E : List Char,
    s = A ++ '-' :: (B ++ '-' :: (C ++ '-' :: (D ++ '-' :: E))) ∧
    A.length = 8 ∧ B.length = 4 ∧ C.length = 4 ∧ D.length = 4 ∧ E.length = 12 ∧
    ∀ c ∈ A ++ B ++ C ++ D ++ E, p c = true

/-- Modelled from the spec: value of a byte under the signed (two's
complement) reading used by the source database driver's clustering
comparator, which is not part of this repository. -/
def sByte (b : Nat) : Int := if b < 128 then (b : Int) else (b : Int) - 256

/-- Modelled from the spec: lexicographic "less or equal" over signed
bytes. -/
def sLexLe : List Nat → List Nat → Prop
  | [], _ => True
  | _ :: _, [] => False
  | a :: as, b :: bs => sByte a < sByte b ∨ (sByte a = sByte b ∧ sLexLe as bs)

/-- Modelled from the spec: the clustering-comparator order on time UUIDs of
the source database driver (not part of this repository) compares the 60-bit
timestamp field first and then the remaining bytes 8-15 (clock id and node
id) as signed bytes, lexicographically. -/
def clusteringLe (a b : List Nat) : Prop :=
  timestampOf a < timestampOf b ∨
    (timestampOf a = timestampOf b ∧ sLexLe (a.drop 8) (b.drop 8))

/-- `TimeUuid.min(date, ticks)`: generate with `minNodeId`/`minClockId`
(ticks shown here already resolved). -/
def timeUuidMin (t k : Int) : List Nat := generateBuffer t k minNodeId minClockId

/-- `TimeUuid.max(date, ticks)`: generate with `maxNodeId`/`maxClockId`
(ticks shown here already resolved). -/
def timeUuidMax (t k : Int) : List Nat := generateBuffer t k maxNodeId maxClockId

/-! ### Packing and decoding lemmas -/

/-- Normal form of `writeTime` when the 64-bit value fits the 60-bit
timestamp field. -/
lemma writeTime_eq (time ticks : Int)
    (h0 : 0 ≤ (time + _unixToGregorian) * 10000 + ticks)
    (h1 : (time + _unixToGregorian) * 10000 + ticks < 2 ^ 60) :
    writeTime time ticks =
      [((time + _unixToGregorian) * 10000 + ticks).toNat / 2 ^ 24 % 256,
       ((time + _unixToGregorian) * 10000 + ticks).toNat / 2 ^ 16 % 256,
       ((time + _unixToGregorian) * 10000 + ticks).toNat / 2 ^ 8 % 256,
       ((time + _unixToGregorian) * 10000 + ticks).toNat % 256,
       ((time + _unixToGregorian) * 10000 + ticks).toNat / 2 ^ 40 % 256,
       ((time + _unixToGregorian) * 10000 + ticks).toNat / 2 ^ 32 % 256,
       ((time + _unixToGregorian) * 10000 + ticks).toNat / 2 ^ 56 % 256,
       ((time + _unixToGregorian) * 10000 + ticks).toNat / 2 ^ 48 % 256] := by
  have hmod : ((time + _unixToGregorian) * 10000 + ticks) % (2 ^ 64 : Int) =
      (time + _unixToGregorian) * 10000 + ticks := Int.emod_eq_of_lt h0 (by omega)
  have hb : ((time + _unixToGregorian) * 10000 + ticks).toNat < 2 ^ 60 := by omega
  simp only [writeTime, hmod, List.cons.injEq, and_true, true_and]
  generalize ((time + _unixToGregorian) * 10000 + ticks).toNat = V at hb ⊢
  refine ⟨?_, ?_, ?_, ?_, ?_, ?_, ?_⟩ <;> omega

/-- Normal form of `generateBuffer` (with a length-2 clock id) as an
explicit byte list. -/
lemma generateBuffer_cons (t k : Int) (node : List Nat) (c0 c1 : Nat)
    (h0 : 0 ≤ (t + _unixToGregorian) * 10000 + k)
    (h1 : (t + _unixToGregorian) * 10000 + k < 2 ^ 60) :
    generateBuffer t k node [c0, c1] =
      ((t + _unixToGregorian) * 10000 + k).toNat / 2 ^ 24 % 256 ::
      ((t + _unixToGregorian) * 10000 + k).toNat / 2 ^ 16 % 256 ::
      ((t + _unixToGregorian) * 10000 + k).toNat / 2 ^ 8 % 256 ::
      ((t + _unixToGregorian) * 10000 + k).toNat % 256 ::
      ((t + _unixToGregorian) * 10000 + k).toNat / 2 ^ 40 % 256 ::
      ((t + _unixToGregorian) * 10000 + k).toNat / 2 ^ 32 % 256 ::
      (((t + _unixToGregorian) * 10000 + k).toNat / 2 ^ 56 % 256 % 16 + 16) ::
      ((t + _unixToGregorian) * 10000 + k).toNat / 2 ^ 48 % 256 ::
      (c0 % 64 + 128) :: c1 :: node := by
  simp only [generateBuffer]
  rw [writeTime_eq t k h0 h1]
  rfl

/-- Decoding inverts the byte packing: the 60-bit field read back by
`getDatePrecision` is the value written by `writeTime`. -/
lemma timestampOf_generateBuffer (t k : Int) (node : List Nat) (c0 c1 : Nat)
    (h0 : 0 ≤ (t + _unixToGregorian) * 10000 + k)
    (h1 : (t + _unixToGregorian) * 10000 + k < 2 ^ 60) :
    timestampOf (generateBuffer t k node [c0, c1]) =
      ((t + _unixToGregorian) * 10000 + k).toNat := by
  rw [generateBuffer_cons t k node c0 c1 h0 h1]
  have hb : ((t + _unixToGregorian) * 10000 + k).toNat < 2 ^ 60 := by omega
  simp only [timestampOf, List.getD_cons_zero, List.getD_cons_succ]
  generalize ((t + _unixToGregorian) * 10000 + k).toNat = V at hb ⊢
  omega

/-- `getDatePrecision` after `generateBuffer`, in raw form. -/
lemma getDatePrecision_generateBuffer (t k : Int) (node : List Nat) (c0 c1 : Nat)
    (h0 : 0 ≤ (t + _unixToGregorian) * 10000 + k)
    (h1 : (t + _unixToGregorian) * 10000 + k < 2 ^ 60) :
    getDatePrecision (generateBuffer t k node [c0, c1]) =
      (((t + _unixToGregorian) * 10000 + k) / 10000 - _unixToGregorian,
       ((t + _unixToGregorian) * 10000 + k) % 10000) := by
  unfold getDatePrecision
  rw [timestampOf_generateBuffer t k node c0 c1 h0 h1, Int.toNat_of_nonneg h0]

/-- `getDatePrecision` recovers exactly the date and ticks that were
packed, for in-range ticks. -/
lemma getDatePrecision_tk (t k : Int) (node : List Nat) (c0 c1 : Nat)
    (hk0 : 0 ≤ k) (hk1 : k < 10000)
    (h0 : 0 ≤ t + _unixToGregorian)
    (h1 : (t + _unixToGregorian) * 10000 + k < 2 ^ 60) :
    getDatePrecision (generateBuffer t k node [c0, c1]) = (t, k) := by
  rw [getDatePrecision_generateBuffer t k node c0 c1 (by omega) h1]
  simp only [Prod.mk.injEq]
  constructor <;> omega

/-- The node id field of a generated buffer is the supplied node id. -/
lemma getNodeId_generateBuffer (t k : Int) (node : List Nat) (c0 c1 : Nat) :
    getNodeId (generateBuffer t k node [c0, c1]) = node := rfl

/-- The clock id field of a generated buffer is the supplied clock id with
the variant bits forced into its first byte. -/
lemma getClockId_generateBuffer (t k : Int) (node : List Nat) (c0 c1 : Nat) :
    getClockId (generateBuffer t k node [c0, c1]) = [c0 % 64 + 128, c1] := rfl

/-! ### C1 and C2: byte layout and its inverse -/

/-- C1: for a calendar time `t`, explicit ticks `0 ≤ k < 10000`, a 6-byte
node id and a 2-byte clock id (with the packed value in the representable
60-bit range), `generateBuffer` packs `(t + 12219292800000) * 10000 + k`
into bytes 0-7 big-endian (low 32 bits at bytes 0-3, bits 32-47 at bytes
4-5, bits 48-59 at bytes 6-7 under the version nibble), copies the clock to
bytes 8-9 and the node to bytes 10-15, and sets the version-1 and variant
bits; the two concrete vectors stringify as documented. -/
theorem generateBuffer_layout (t k : Int) (node : List Nat) (c0 c1 : Nat)
    (hk0 : 0 ≤ k) (hk1 : k < 10000)
    (h0 : 0 ≤ t + _unixToGregorian)
    (h1 : (t + _unixToGregorian) * 10000 + k < 2 ^ 60) :
    generateBuffer t k node [c0, c1] =
      [((t + _unixToGregorian) * 10000 + k).toNat / 2 ^ 24 % 256,
       ((t + _unixToGregorian) * 10000 + k).toNat / 2 ^ 16 % 256,
       ((t + _unixToGregorian) * 10000 + k).toNat / 2 ^ 8 % 256,
       ((t + _unixToGregorian) * 10000 + k).toNat % 256,
       ((t + _unixToGregorian) * 10000 + k).toNat / 2 ^ 40 % 256,
       ((t + _unixToGregorian) * 10000 + k).toNat / 2 ^ 32 % 256,
       16 + ((t + _unixToGregorian) * 10000 + k).toNat / 2 ^ 56,
       ((t + _unixToGregorian) * 10000 + k).toNat / 2 ^ 48 % 256,
       128 + c0 % 64, c1] ++ node ∧
    uuidToString (generateBuffer (-12219292800000) 0 [0, 0, 0, 0, 0, 0] [0, 0]) =
      ("00000000-0000-1000-8000-000000000000").toList ∧
    uuidToString (generateBuffer 0 0 [255, 255, 255, 255, 255, 255] [255, 255]) =
      ("13814000-1dd2-11b2-bfff-ffffffffffff").toList := by
  refine ⟨?_, by decide, by decide⟩
  rw [generateBuffer_cons t k node c0 c1 (by omega) h1]
  have hb : ((t + _unixToGregorian) * 10000 + k).toNat < 2 ^ 60 := by omega
  simp only [List.cons_append, List.nil_append, List.cons.injEq, and_true, true_and]
  generalize ((t + _unixToGregorian) * 10000 + k).toNat = V at hb ⊢
  constructor <;> omega

/-- Witness for C1 at `t = 0`, `k = 3`, node `01…06`, clock `ab cd`. -/
theorem generateBuffer_layout_witness :
    generateBuffer 0 3 [1, 2, 3, 4, 5, 6] [171, 205] =
      [((0 + _unixToGregorian) * 10000 + 3).toNat / 2 ^ 24 % 256,
       ((0 + _unixToGregorian) * 10000 + 3).toNat / 2 ^ 16 % 256,
       ((0 + _unixToGregorian) * 10000 + 3).toNat / 2 ^ 8 % 256,
       ((0 + _unixToGregorian) * 10000 + 3).toNat % 256,
       ((0 + _unixToGregorian) * 10000 + 3).toNat / 2 ^ 40 % 256,
       ((0 + _unixToGregorian) * 10000 + 3).toNat / 2 ^ 32 % 256,
       16 + ((0 + _unixToGregorian) * 10000 + 3).toNat / 2 ^ 56,
       ((0 + _unixToGregorian) * 10000 + 3).toNat / 2 ^ 48 % 256,
       128 + 171 % 64, 205] ++ [1, 2, 3, 4, 5, 6] ∧
    uuidToString (generateBuffer (-12219292800000) 0 [0, 0, 0, 0, 0, 0] [0, 0]) =
      ("00000000-0000-1000-8000-000000000000").toList ∧
    uuidToString (generateBuffer 0 0 [255, 255, 255, 255, 255, 255] [255, 255]) =
      ("13814000-1dd2-11b2-bfff-ffffffffffff").toList :=
  generateBuffer_layout 0 3 [1, 2, 3, 4, 5, 6] 171 205
    (by decide) (by decide) (by decide) (by decide)

/-- C2: `getDatePrecision` applied to the buffer produced by
`generateBuffer` with explicit date `t` and explicit ticks `0 ≤ k < 10000`
returns exactly the pair `(t, k)`: reading the 60-bit field, dividing by
10000 and subtracting the Gregorian epoch offset inverts the packing. -/
theorem getDatePrecision_inverts_generateBuffer (t k : Int) (node : List Nat) (c0 c1 : Nat)
    (hk0 : 0 ≤ k) (hk1 : k < 10000)
    (h0 : 0 ≤ t + _unixToGregorian)
    (h1 : (t + _unixToGregorian) * 10000 + k < 2 ^ 60) :
    getDatePrecision (generateBuffer t k node [c0, c1]) = (t, k) :=
  getDatePrecision_tk t k node c0 c1 hk0 hk1 h0 h1

/-- Witness for C2 at the Unix epoch with ticks 699. -/
theorem getDatePrecision_inverts_generateBuffer_witness :
    getDatePrecision (generateBuffer 0 699 [1, 1, 1, 1, 1, 1] [1, 1]) = (0, 699) :=
  getDatePrecision_inverts_generateBuffer 0 699 [1, 1, 1, 1, 1, 1] 1 1
    (by decide) (by decide) (by decide) (by decide)

/-! ### C3, C4, C5: the tick counters -/

/-- The `_ticks` counter after `n` explicit-date calls equals `n % 10000`
(the counter is pre-incremented, so after one call it is 1). -/
lemma explicitSeq_state (t : Int) (node clock : List Nat) (n : Nat) :
    (explicitSeq t node clock n).1 = n % 10000 := by
  induction n with
  | zero => rfl
  | succ n ih =>
    have h : n % 10000 < 10000 := Nat.mod_lt _ (by omega)
    simp only [explicitSeq, getTicksStep, tickStep, _ticksInMs, ih]
    split <;> omega

/-- The buffer produced by the `n + 1`-st explicit-date call uses ticks
`(n + 1) % 10000`. -/
lemma explicitSeq_buffer (t : Int) (node clock : List Nat) (n : Nat) :
    (explicitSeq t node clock (n + 1)).2 =
      generateBuffer t (((n + 1) % 10000 : Nat) : Int) node clock := by
  have h : n % 10000 < 10000 := Nat.mod_lt _ (by omega)
  simp only [explicitSeq, getTicksStep, tickStep, _ticksInMs, explicitSeq_state]
  congr 1
  rw [Nat.cast_inj]
  split <;> omega

/-- C3: with a fixed explicit date, node id and clock id and no explicit
ticks, starting from the initial counter state, the first 10000 generated
identifiers are pairwise distinct and the 10001st is byte-equal to the
1st. -/
theorem explicit_collision_cycle (t : Int) (node : List Nat) (c0 c1 : Nat)
    (h0 : 0 ≤ t + _unixToGregorian)
    (h1 : (t + _unixToGregorian) * 10000 + 10000 < 2 ^ 60) :
    (∀ i j, 1 ≤ i → i < j → j ≤ 10000 →
      (explicitSeq t node [c0, c1] i).2 ≠ (explicitSeq t node [c0, c1] j).2) ∧
    (explicitSeq t node [c0, c1] 10001).2 = (explicitSeq t node [c0, c1] 1).2 := by
  constructor
  · intro i j hi hij hj heq
    obtain ⟨i', rfl⟩ : ∃ i', i = i' + 1 := ⟨i - 1, by omega⟩
    obtain ⟨j', rfl⟩ : ∃ j', j = j' + 1 := ⟨j - 1, by omega⟩
    rw [explicitSeq_buffer, explicitSeq_buffer] at heq
    have hki : (i' + 1) % 10000 < 10000 := Nat.mod_lt _ (by omega)
    have hkj : (j' + 1) % 10000 < 10000 := Nat.mod_lt _ (by omega)
    have hkiI : (((i' + 1) % 10000 : Nat) : Int) < 10000 := by exact_mod_cast hki
    have hkjI : (((j' + 1) % 10000 : Nat) : Int) < 10000 := by exact_mod_cast hkj
    have hdi := getDatePrecision_tk t (((i' + 1) % 10000 : Nat) : Int) node c0 c1
      (by positivity) hkiI h0 (by omega)
    have hdj := getDatePrecision_tk t (((j' + 1) % 10000 : Nat) : Int) node c0 c1
      (by positivity) hkjI h0 (by omega)
    have hd := congrArg getDatePrecision heq
    rw [hdi, hdj] at hd
    have : (((i' + 1) % 10000 : Nat) : Int) = (((j' + 1) % 10000 : Nat) : Int) :=
      congrArg Prod.snd hd
    have heqn : (i' + 1) % 10000 = (j' + 1) % 10000 := by exact_mod_cast this
    omega
  · have ha := explicitSeq_buffer t node [c0, c1] 10000
    have hb := explicitSeq_buffer t node [c0, c1] 0
    norm_num at ha hb
    rw [ha, hb]

/-- Witness for C3 at the Unix epoch: its first conjunct applied to the
first two calls, together with the collision at 10001. -/
theorem explicit_collision_cycle_witness :
    (explicitSeq 0 [1, 2, 3, 4, 5, 6] [7, 8] 1).2 ≠ (explicitSeq 0 [1, 2, 3, 4, 5, 6] [7, 8] 2).2 ∧
    (explicitSeq 0 [1, 2, 3, 4, 5, 6] [7, 8] 10001).2 = (explicitSeq 0 [1, 2, 3, 4, 5, 6] [7, 8] 1).2 :=
  ⟨(explicit_collision_cycle 0 [1, 2, 3, 4, 5, 6] 7 8 (by decide) (by decide)).1 1 2
      (by decide) (by decide) (by decide),
   (explicit_collision_cycle 0 [1, 2, 3, 4, 5, 6] 7 8 (by decide) (by decide)).2⟩

/-- C5 counterexample: the first resolution call after process start
(counter state 0, no usable explicit ticks) is assigned tick 1, not the
claimed current counter value 0: `getTicks` pre-increments. -/
theorem getTicks_first_call_counterexample :
    getTicksStep 0 none = (1, 1) ∧ (getTicksStep 0 none).2 ≠ 0 := by decide

/-- C5 (amended): the explicit-time tick sequence is a single process-wide
counter with initial value 0; each resolution call (no usable explicit
ticks) first increments the counter, wrapping to 0 when it reaches 10000,
and is assigned the resulting value `(s + 1) % 10000`; explicit ticks
`< 10000` bypass the counter; the first call after process start is
assigned tick 1. -/
theorem getTicks_sequence (s : Nat) (k : Int) (hs : s < 10000) :
    getTicksStep s none = ((s + 1) % 10000, (((s + 1) % 10000 : Nat) : Int)) ∧
    ((_ticksInMs : Int) ≤ k →
      getTicksStep s (some k) = ((s + 1) % 10000, (((s + 1) % 10000 : Nat) : Int))) ∧
    (k < (_ticksInMs : Int) → getTicksStep s (some k) = (s, k)) ∧
    (getTicksStep 0 none).2 = 1 := by
  have hts : tickStep s = (s + 1) % 10000 := by
    unfold tickStep _ticksInMs
    split <;> omega
  refine ⟨?_, fun hk => ?_, fun hk => ?_, by decide⟩
  · simp only [getTicksStep, hts]
  · simp only [getTicksStep, hts]
    rw [if_neg (by omega)]
  · simp only [getTicksStep]
    rw [if_pos hk]

/-- Witness for C5 at counter state 3 and explicit ticks 20000. -/
theorem getTicks_sequence_witness :
    getTicksStep 3 none = ((3 + 1) % 10000, (((3 + 1) % 10000 : Nat) : Int)) ∧
    getTicksStep 3 (some 5) = (3, 5) :=
  ⟨(getTicks_sequence 3 20000 (by decide)).1,
   (getTicks_sequence 3 5 (by decide)).2.2.1 (by decide)⟩

/-- C4 counterexample: in the same observed millisecond, from counter value
9999 the next "now" generation is assigned tick 10000 (the counter wraps
only when the incremented value exceeds 10000), not 0 as claimed by
"wrapping at 10000 back to 0" with ticks within [0, 9999]. -/
theorem nowPath_claim_counterexample :
    getTimeWithTicksNowPath 1700000000000 9999 1700000000000 =
      ((1700000000000, 10000), 10000) ∧
    (getTimeWithTicksNowPath 1700000000000 9999 1700000000000).2 ≠ 0 := by decide

/-- C4 (amended): on every "now" generation, if the observed wall-clock
millisecond exceeds `lastMillis` the state becomes `(nowMillis, 0)` and the
assigned tick is 0; otherwise the counter is incremented, and only when the
incremented value exceeds 10000 does it wrap back to 0 (also setting
`lastMillis = nowMillis`); the assigned tick is the resulting counter
value, which lies in [0, 10000] (the value 10000 is then routed through the
explicit sequence by `getTicks`).  The initial state is `(0, 0)`, and after
a millisecond boundary the first call gets tick 0 with subsequent
same-millisecond calls counting up: after `m ≤ 10000` further calls in the
same millisecond the counter is exactly `m`. -/
theorem nowPath_transition (last c now T : Nat) :
    (last < now → getTimeWithTicksNowPath last c now = ((now, 0), 0)) ∧
    (now ≤ last → c + 1 ≤ 10000 →
      getTimeWithTicksNowPath last c now = ((last, c + 1), c + 1)) ∧
    (now ≤ last → 10000 < c + 1 → getTimeWithTicksNowPath last c now = ((now, 0), 0)) ∧
    (getTimeWithTicksNowPath last c now).2 ≤ 10000 ∧
    initialNowState = (0, 0) ∧
    (∀ m, m ≤ 10000 → nowStateIter T m = (T, m)) := by
  have key : ∀ l c' n, getTimeWithTicksNowPath l c' n =
      if 10000 < c' + 1 ∨ l < n then ((n, 0), 0) else ((l, c' + 1), c' + 1) := by
    intro l c' n
    unfold getTimeWithTicksNowPath _ticksInMs
    rfl
  have iter : ∀ m, m ≤ 10000 → nowStateIter T m = (T, m) := by
    intro m
    induction m with
    | zero => intro _; rfl
    | succ m ih =>
      intro hm
      have h1 := ih (by omega)
      simp only [nowStateIter, h1]
      rw [key, if_neg (by omega)]
  refine ⟨fun h => ?_, fun h hc => ?_, fun h hc => ?_, ?_, rfl, iter⟩
  · rw [key, if_pos (by omega)]
  · rw [key, if_neg (by omega)]
  · rw [key, if_pos (by omega)]
  · rw [key]
    split <;> omega

/-- Witness for C4: a millisecond-boundary call from the initial state, and
three same-millisecond follow-up calls. -/
theorem nowPath_transition_witness :
    getTimeWithTicksNowPath 0 0 1700000000000 = ((1700000000000, 0), 0) ∧
    nowStateIter 1700000000000 3 = (1700000000000, 3) :=
  ⟨(nowPath_transition 0 0 1700000000000 1700000000000).1 (by decide),
   (nowPath_transition 0 0 1700000000000 1700000000000).2.2.2.2.2 3 (by decide)⟩

/-! ### C6 and C10: getBefore and the stored clock id -/

/-- C6: for an identifier generated with explicit ticks `k > 0`,
`getBefore` keeps the date, node id and clock id and decrements ticks; for
`k = 0` (date strictly after the Gregorian epoch) it returns ticks 9999
and a date exactly 1 millisecond earlier. -/
theorem getBefore_spec (t k : Int) (node : List Nat) (c0 c1 : Nat)
    (hk0 : 0 ≤ k) (hk1 : k < 10000)
    (h0 : 0 ≤ t + _unixToGregorian)
    (hpos : k = 0 → 1 ≤ t + _unixToGregorian)
    (h1 : (t + _unixToGregorian) * 10000 + k < 2 ^ 60) :
    getNodeId (getBefore (generateBuffer t k node [c0, c1])) =
      getNodeId (generateBuffer t k node [c0, c1]) ∧
    getClockId (getBefore (generateBuffer t k node [c0, c1])) =
      getClockId (generateBuffer t k node [c0, c1]) ∧
    (1 ≤ k → getDatePrecision (getBefore (generateBuffer t k node [c0, c1])) = (t, k - 1)) ∧
    (k = 0 → getDatePrecision (getBefore (generateBuffer t k node [c0, c1])) = (t - 1, 9999)) := by
  have hdp := getDatePrecision_tk t k node c0 c1 hk0 hk1 h0 h1
  have hgb : getBefore (generateBuffer t k node [c0, c1]) =
      generateBuffer t (k - 1) node [c0 % 64 + 128, c1] := by
    unfold getBefore
    rw [hdp, getNodeId_generateBuffer, getClockId_generateBuffer]
  refine ⟨?_, ?_, fun hk => ?_, fun hk => ?_⟩
  · rw [hgb, getNodeId_generateBuffer, getNodeId_generateBuffer]
  · rw [hgb, getClockId_generateBuffer, getClockId_generateBuffer]
    simp only [List.cons.injEq, and_true]
    omega
  · rw [hgb, getDatePrecision_generateBuffer t (k - 1) node (c0 % 64 + 128) c1
      (by omega) (by omega)]
    simp only [Prod.mk.injEq]
    constructor <;> omega
  · subst hk
    have hg := hpos rfl
    rw [hgb, getDatePrecision_generateBuffer t (0 - 1) node (c0 % 64 + 128) c1
      (by omega) (by omega)]
    simp only [Prod.mk.injEq]
    constructor <;> omega

/-- Witness for C6 at the Unix epoch: predecessor of ticks 0 and of
ticks 5. -/
theorem getBefore_spec_witness :
    getDatePrecision (getBefore (generateBuffer 0 5 [1, 2, 3, 4, 5, 6] [7, 8])) = (0, 5 - 1) ∧
    getDatePrecision (getBefore (generateBuffer 0 0 [1, 2, 3, 4, 5, 6] [7, 8])) = (0 - 1, 9999) ∧
    getNodeId (getBefore (generateBuffer 0 0 [1, 2, 3, 4, 5, 6] [7, 8])) =
      getNodeId (generateBuffer 0 0 [1, 2, 3, 4, 5, 6] [7, 8]) :=
  ⟨(getBefore_spec 0 5 [1, 2, 3, 4, 5, 6] 7 8 (by decide) (by decide) (by decide)
      (by intro h; exact absurd h (by decide)) (by decide)).2.2.1 (by decide),
   (getBefore_spec 0 0 [1, 2, 3, 4, 5, 6] 7 8 (by decide) (by decide) (by decide)
      (fun _ => by decide) (by decide)).2.2.2 rfl,
   (getBefore_spec 0 0 [1, 2, 3, 4, 5, 6] 7 8 (by decide) (by decide) (by decide)
      (fun _ => by decide) (by decide)).1⟩

/-- C10: the stored clock field of a generated identifier is the supplied
clock with the top two bits of its first byte overwritten by the IETF
variant bits; `getClockId` returns the supplied bytes unchanged exactly
when the first byte already has top bits `10`; supplied clock `ffff` reads
back as `bfff`. -/
theorem clockId_variant_bits (t k : Int) (node : List Nat) (c0 c1 : Nat)
    (hc0 : c0 < 256) :
    getClockId (generateBuffer t k node [c0, c1]) = [c0 % 64 + 128, c1] ∧
    (getClockId (generateBuffer t k node [c0, c1]) = [c0, c1] ↔ 128 ≤ c0 ∧ c0 < 192) ∧
    getClockId (generateBuffer 0 0 [255, 255, 255, 255, 255, 255] [255, 255]) = [191, 255] := by
  refine ⟨getClockId_generateBuffer t k node c0 c1, ?_, by decide⟩
  rw [getClockId_generateBuffer]
  simp only [List.cons.injEq, and_true]
  omega

/-- Witness for C10 with supplied clock `ff ff`. -/
theorem clockId_variant_bits_witness :
    getClockId (generateBuffer 0 0 [9, 9, 9, 9, 9, 9] [255, 255]) = [255 % 64 + 128, 255] ∧
    (getClockId (generateBuffer 0 0 [9, 9, 9, 9, 9, 9] [255, 255]) = [255, 255] ↔
      128 ≤ 255 ∧ 255 < 192) :=
  ⟨(clockId_variant_bits 0 0 [9, 9, 9, 9, 9, 9] 255 255 (by decide)).1,
   (clockId_variant_bits 0 0 [9, 9, 9, 9, 9, 9] 255 255 (by decide)).2.1⟩

/-! ### C9: min and max boundary identifiers -/

/-- Bytes 8-15 of a generated buffer: stored clock id then node id. -/
lemma drop8_generateBuffer (t k : Int) (node : List Nat) (c0 c1 : Nat) :
    (generateBuffer t k node [c0, c1]).drop 8 = (c0 % 64 + 128) :: c1 :: node := rfl

/-- Every byte value is at least `0x80` under the signed reading. -/
lemma neg128_le_sByte (x : Nat) : -128 ≤ sByte x := by
  unfold sByte
  split <;> omega

/-- A byte value is at most `0x7f` under the signed reading. -/
lemma sByte_le_127 (x : Nat) (h : x < 256) : sByte x ≤ 127 := by
  unfold sByte
  split <;> omega

/-- Pointwise signed-byte dominance gives the lexicographic order. -/
lemma sLexLe_of_forall2 (as bs : List Nat)
    (h : List.Forall₂ (fun a b => sByte a ≤ sByte b) as bs) : sLexLe as bs := by
  induction h with
  | nil => trivial
  | cons hab htail ih =>
    rcases lt_or_eq_of_le hab with h1 | h1
    · exact Or.inl h1
    · exact Or.inr ⟨h1, ih⟩

/-- C9: `min`/`max` generate with node id `0x808080808080`/`0x7f7f7f7f7f7f`
and clock id `0x8080`/`0x7f7f`, and for the same timestamp and ticks every
generated identifier lies between them in the clustering-comparator order
(modelled from the spec as signed-byte comparison after the timestamp
field). -/
theorem min_max_bounds (t k : Int) (n0 n1 n2 n3 n4 n5 c0 c1 : Nat)
    (hn0 : n0 < 256) (hn1 : n1 < 256) (hn2 : n2 < 256) (hn3 : n3 < 256)
    (hn4 : n4 < 256) (hn5 : n5 < 256) (hc1 : c1 < 256)
    (h0 : 0 ≤ (t + _unixToGregorian) * 10000 + k)
    (h1 : (t + _unixToGregorian) * 10000 + k < 2 ^ 60) :
    timeUuidMin t k = generateBuffer t k minNodeId minClockId ∧
    timeUuidMax t k = generateBuffer t k maxNodeId maxClockId ∧
    clusteringLe (timeUuidMin t k) (generateBuffer t k [n0, n1, n2, n3, n4, n5] [c0, c1]) ∧
    clusteringLe (generateBuffer t k [n0, n1, n2, n3, n4, n5] [c0, c1]) (timeUuidMax t k) := by
  have hts : ∀ node : List Nat, ∀ d0 d1 : Nat,
      timestampOf (generateBuffer t k node [d0, d1]) =
        ((t + _unixToGregorian) * 10000 + k).toNat := fun node d0 d1 =>
    timestampOf_generateBuffer t k node d0 d1 h0 h1
  refine ⟨rfl, rfl, Or.inr ⟨?_, ?_⟩, Or.inr ⟨?_, ?_⟩⟩
  · rw [show timeUuidMin t k = generateBuffer t k [128, 128, 128, 128, 128, 128] [128, 128]
      from rfl, hts, hts]
  · rw [show timeUuidMin t k = generateBuffer t k [128, 128, 128, 128, 128, 128] [128, 128]
      from rfl, drop8_generateBuffer, drop8_generateBuffer]
    refine sLexLe_of_forall2 _ _ ?_
    refine List.Forall₂.cons ?_ (List.Forall₂.cons ?_ (List.Forall₂.cons ?_
      (List.Forall₂.cons ?_ (List.Forall₂.cons ?_ (List.Forall₂.cons ?_
      (List.Forall₂.cons ?_ (List.Forall₂.cons ?_ List.Forall₂.nil))))))) <;>
      · simp only [sByte]
        split <;> split <;> omega
  · rw [show timeUuidMax t k = generateBuffer t k [127, 127, 127, 127, 127, 127] [127, 127]
      from rfl, hts, hts]
  · rw [show timeUuidMax t k = generateBuffer t k [127, 127, 127, 127, 127, 127] [127, 127]
      from rfl, drop8_generateBuffer, drop8_generateBuffer]
    refine sLexLe_of_forall2 _ _ ?_
    refine List.Forall₂.cons ?_ (List.Forall₂.cons ?_ (List.Forall₂.cons ?_
      (List.Forall₂.cons ?_ (List.Forall₂.cons ?_ (List.Forall₂.cons ?_
      (List.Forall₂.cons ?_ (List.Forall₂.cons ?_ List.Forall₂.nil))))))) <;>
      · simp only [sByte]
        split <;> split <;> omega

/-- Witness for C9 at the Unix epoch with ticks 0 and node `01…06`, clock
`ab cd`. -/
theorem min_max_bounds_witness :
    clusteringLe (timeUuidMin 0 0) (generateBuffer 0 0 [1, 2, 3, 4, 5, 6] [171, 205]) ∧
    clusteringLe (generateBuffer 0 0 [1, 2, 3, 4, 5, 6] [171, 205]) (timeUuidMax 0 0) :=
  ⟨(min_max_bounds 0 0 1 2 3 4 5 6 171 205 (by decide) (by decide) (by decide) (by decide)
      (by decide) (by decide) (by decide) (by decide) (by decide)).2.2.1,
   (min_max_bounds 0 0 1 2 3 4 5 6 171 205 (by decide) (by decide) (by decide) (by decide)
      (by decide) (by decide) (by decide) (by decide) (by decide)).2.2.2⟩

/-! ### C7 and C8: string encoding and parsing -/

/-- Hex-encoding a digit and decoding it round-trips. -/
lemma hexVal_hexDigitChar (d : Nat) (h : d < 16) : hexVal (hexDigitChar d) = some d := by
  interval_cases d <;> decide

/-- Hex digits produced by the encoder are lowercase hex characters. -/
lemma isLowerHexChar_hexDigitChar (d : Nat) (h : d < 16) :
    isLowerHexChar (hexDigitChar d) = true := by
  interval_cases d <;> decide

/-- Hex digits produced by the encoder are never hyphens. -/
lemma hexDigitChar_ne_hyphen (d : Nat) (h : d < 16) : hexDigitChar d ≠ '-' := by
  interval_cases d <;> decide

/-- Unfolding `bufferToHex` one byte at a time. -/
lemma bufferToHex_cons (x : Nat) (b : List Nat) :
    bufferToHex (x :: b) = hexDigitChar (x / 16) :: hexDigitChar (x % 16) :: bufferToHex b := rfl

/-- The hex form has two characters per byte. -/
lemma bufferToHex_length (b : List Nat) : (bufferToHex b).length = 2 * b.length := by
  induction b with
  | nil => rfl
  | cons x b ih =>
    rw [bufferToHex_cons]
    simp only [List.length_cons, ih]
    omega

/-- Every character of the hex form is a lowercase hex digit (hence not a
hyphen). -/
lemma mem_bufferToHex (b : List Nat) (hb : ∀ x ∈ b, x < 256) :
    ∀ c ∈ bufferToHex b, isLowerHexChar c = true ∧ c ≠ '-' := by
  induction b with
  | nil => intro c hc; simp [bufferToHex] at hc
  | cons x b ih =>
    intro c hc
    have hx : x < 256 := hb x (by simp)
    rw [bufferToHex_cons] at hc
    rcases List.mem_cons.mp hc with h1 | hc
    · subst h1
      exact ⟨isLowerHexChar_hexDigitChar _ (by omega), hexDigitChar_ne_hyphen _ (by omega)⟩
    rcases List.mem_cons.mp hc with h1 | hc
    · subst h1
      exact ⟨isLowerHexChar_hexDigitChar _ (by omega), hexDigitChar_ne_hyphen _ (by omega)⟩
    · exact ih (fun y hy => hb y (by simp [hy])) c hc

/-- Decoding the hex form of a byte list recovers the bytes. -/
lemma hexDecodePairs_bufferToHex (b : List Nat) (hb : ∀ x ∈ b, x < 256) :
    hexDecodePairs (bufferToHex b) = b := by
  induction b with
  | nil => rfl
  | cons x b ih =>
    have hx : x < 256 := hb x (by simp)
    rw [bufferToHex_cons]
    simp only [hexDecodePairs, hexVal_hexDigitChar (x / 16) (by omega),
      hexVal_hexDigitChar (x % 16) (by omega)]
    rw [ih (fun y hy => hb y (by simp [hy]))]
    simp only [List.cons.injEq, and_true]
    omega

/-- Filtering leaves a hyphen-free list unchanged. -/
lemma filter_of_no_hyphen (l : List Char) (h : ∀ c ∈ l, c ≠ '-') :
    l.filter (fun c => c != '-') = l :=
  List.filter_eq_self.mpr (fun a ha => by simpa using h a ha)

/-- Filtering drops a leading hyphen. -/
lemma filter_hyphen_cons (l : List Char) :
    ('-' :: l).filter (fun c => c != '-') = l.filter (fun c => c != '-') := by simp

/-- Reassembling the four hyphen-separated groups of a 32-character list. -/
lemma groups_reassemble (h : List Char) (hlen : h.length = 32) :
    h.take 8 ++ ((h.drop 8).take 4 ++ ((h.drop 12).take 4 ++
      ((h.drop 16).take 4 ++ (h.drop 20).take 12))) = h := by
  have e1 : (h.drop 20).take 12 = h.drop 20 := List.take_of_length_le (by simp [hlen])
  have e2 := List.drop_take_append_drop h 16 4
  have e3 := List.drop_take_append_drop h 12 4
  have e4 := List.drop_take_append_drop h 8 4
  norm_num at e2 e3 e4
  rw [e1, e2, e3, e4]
  exact List.take_append_drop 8 h

/-- C7: for every 16-byte buffer, parsing the canonical string form gives
back the same bytes; the string form has 36 characters and is a canonical
hyphenated lowercase hex string. -/
theorem uuid_string_roundtrip (b : List Nat) (hlen : b.length = 16)
    (hb : ∀ x ∈ b, x < 256) :
    uuidFromString (uuidToString b) = some b ∧
    (uuidToString b).length = 36 ∧
    canonicalWith isLowerHexChar (uuidToString b) := by
  have hhlen : (bufferToHex b).length = 32 := by rw [bufferToHex_length, hlen]
  have hmem := mem_bufferToHex b hb
  have hshape : uuidToString b =
      (bufferToHex b).take 8 ++ '-' :: (((bufferToHex b).drop 8).take 4 ++
        '-' :: (((bufferToHex b).drop 12).take 4 ++
        '-' :: (((bufferToHex b).drop 16).take 4 ++
        '-' :: ((bufferToHex b).drop 20).take 12))) := by
    simp only [uuidToString, List.cons_append, List.append_assoc]
  have hlen36 : (uuidToString b).length = 36 := by
    rw [hshape]
    simp only [List.length_append, List.length_cons, List.length_take, List.length_drop, hhlen]
    omega
  have hpieces : ∀ c, (c ∈ (bufferToHex b).take 8 ∨ c ∈ ((bufferToHex b).drop 8).take 4 ∨
      c ∈ ((bufferToHex b).drop 12).take 4 ∨ c ∈ ((bufferToHex b).drop 16).take 4 ∨
      c ∈ ((bufferToHex b).drop 20).take 12) → isLowerHexChar c = true ∧ c ≠ '-' := by
    intro c hc
    rcases hc with hc | hc | hc | hc | hc
    · exact hmem c (List.take_subset _ _ hc)
    · exact hmem c (List.drop_subset _ _ (List.take_subset _ _ hc))
    · exact hmem c (List.drop_subset _ _ (List.take_subset _ _ hc))
    · exact hmem c (List.drop_subset _ _ (List.take_subset _ _ hc))
    · exact hmem c (List.drop_subset _ _ (List.take_subset _ _ hc))
  have hstrip : (uuidToString b).filter (fun c => c != '-') = bufferToHex b := by
    rw [hshape, List.filter_append, filter_hyphen_cons, List.filter_append,
      filter_hyphen_cons, List.filter_append, filter_hyphen_cons, List.filter_append,
      filter_hyphen_cons]
    rw [filter_of_no_hyphen _ (fun c hc => (hpieces c (Or.inl hc)).2),
      filter_of_no_hyphen _ (fun c hc => (hpieces c (Or.inr (Or.inl hc))).2),
      filter_of_no_hyphen _ (fun c hc => (hpieces c (Or.inr (Or.inr (Or.inl hc)))).2),
      filter_of_no_hyphen _ (fun c hc => (hpieces c (Or.inr (Or.inr (Or.inr (Or.inl hc))))).2),
      filter_of_no_hyphen _ (fun c hc => (hpieces c (Or.inr (Or.inr (Or.inr (Or.inr hc))))).2)]
    exact groups_reassemble _ hhlen
  refine ⟨?_, hlen36, ?_⟩
  · simp only [uuidFromString]
    rw [if_neg (fun hne => hne hlen36), hstrip, hexDecodePairs_bufferToHex b hb, if_pos hlen]
  · refine ⟨(bufferToHex b).take 8, ((bufferToHex b).drop 8).take 4,
      ((bufferToHex b).drop 12).take 4, ((bufferToHex b).drop 16).take 4,
      ((bufferToHex b).drop 20).take 12, hshape, ?_, ?_, ?_, ?_, ?_, ?_⟩
    · simp only [List.length_take, hhlen]
      omega
    · simp only [List.length_take, List.length_drop, hhlen]
      omega
    · simp only [List.length_take, List.length_drop, hhlen]
      omega
    · simp only [List.length_take, List.length_drop, hhlen]
      omega
    · simp only [List.length_take, List.length_drop, hhlen]
      omega
    · intro c hc
      simp only [List.mem_append] at hc
      rcases hc with ((((hc | hc) | hc) | hc) | hc)
      · exact (hpieces c (Or.inl hc)).1
      · exact (hpieces c (Or.inr (Or.inl hc))).1
      · exact (hpieces c (Or.inr (Or.inr (Or.inl hc)))).1
      · exact (hpieces c (Or.inr (Or.inr (Or.inr (Or.inl hc))))).1
      · exact (hpieces c (Or.inr (Or.inr (Or.inr (Or.inr hc))))).1

/-- Witness for C7 on a concrete 16-byte buffer. -/
theorem uuid_string_roundtrip_witness :
    uuidFromString (uuidToString
        [171, 187, 204, 221, 238, 255, 0, 17, 34, 51, 68, 85, 102, 119, 136, 153]) =
      some [171, 187, 204, 221, 238, 255, 0, 17, 34, 51, 68, 85, 102, 119, 136, 153] :=
  (uuid_string_roundtrip [171, 187, 204, 221, 238, 255, 0, 17, 34, 51, 68, 85, 102, 119, 136, 153]
    (by decide) (by decide)).1

/-- Decoding a list of hex characters yields one byte per complete pair. -/
lemma hexDecodePairs_length_of_hex : ∀ l : List Char, (∀ c ∈ l, isHexChar c = true) →
    (hexDecodePairs l).length = l.length / 2
  | [], _ => rfl
  | [c], _ => by
    rw [show hexDecodePairs [c] = [] from rfl]
    simp only [List.length_cons, List.length_nil]
  | c1 :: c2 :: rest, h => by
    have h1 : isHexChar c1 = true := h c1 (by simp)
    have h2 : isHexChar c2 = true := h c2 (by simp)
    unfold isHexChar at h1 h2
    obtain ⟨v1, hv1⟩ := Option.isSome_iff_exists.mp h1
    obtain ⟨v2, hv2⟩ := Option.isSome_iff_exists.mp h2
    simp only [hexDecodePairs, hv1, hv2, List.length_cons]
    rw [hexDecodePairs_length_of_hex rest (fun c hc => h c (by simp [hc]))]
    omega

/-- C8 counterexample: this 36-character string contains the non-hex
character `z` after hyphen stripping (and its hyphens are not at the
canonical offsets), yet `fromString` accepts it: the decoder silently stops
at `z` having already produced 16 bytes. -/
theorem uuidFromString_noncanonical_counterexample :
    (uuidFromString (("0123456789abcdef0123456789abcdefz---").toList)).isSome = true ∧
    (uuidFromString (("0123456789abcdef0123456789abcdef----").toList)).isSome = true ∧
    ¬ (∀ c ∈ (("0123456789abcdef0123456789abcdefz---").toList).filter (fun c => c != '-'),
        isHexChar c = true) := by
  refine ⟨by decide, by decide, by decide⟩

/-- C8 (amended): `fromString` accepts every 36-character string in the
canonical hyphenated hex layout, and rejects every string of any other
length; but hyphen positions and hex digits are not otherwise checked: a
36-character string is accepted exactly when, after removing all hyphens
wherever they occur, the complete two-digit hex pairs before the first
invalid character or incomplete pair decode to exactly 16 bytes. -/
theorem uuidFromString_spec (s : List Char) :
    (canonicalWith isHexChar s → (uuidFromString s).isSome = true) ∧
    (s.length ≠ 36 → uuidFromString s = none) ∧
    ((uuidFromString s).isSome = true ↔
      s.length = 36 ∧ (hexDecodePairs (s.filter (fun c => c != '-'))).length = 16) := by
  refine ⟨?_, ?_, ?_⟩
  · rintro ⟨A, B, C, D, E, rfl, hA, hB, hC, hD, hE, hall⟩
    have haux : ∀ c, (c ∈ A ∨ c ∈ B ∨ c ∈ C ∨ c ∈ D ∨ c ∈ E) → isHexChar c = true := by
      intro c hc
      apply hall
      simp only [List.mem_append]
      tauto
    have hnh : ∀ c, (c ∈ A ∨ c ∈ B ∨ c ∈ C ∨ c ∈ D ∨ c ∈ E) → c ≠ '-' := by
      intro c hc he
      subst he
      exact absurd (haux _ hc) (by decide)
    have hL : (A ++ '-' :: (B ++ '-' :: (C ++ '-' :: (D ++ '-' :: E)))).length = 36 := by
      simp only [List.length_append, List.length_cons, hA, hB, hC, hD, hE]
    have hstrip : (A ++ '-' :: (B ++ '-' :: (C ++ '-' :: (D ++ '-' :: E)))).filter
        (fun c => c != '-') = A ++ (B ++ (C ++ (D ++ E))) := by
      rw [List.filter_append, filter_hyphen_cons, List.filter_append, filter_hyphen_cons,
        List.filter_append, filter_hyphen_cons, List.filter_append, filter_hyphen_cons]
      rw [filter_of_no_hyphen _ (fun c hc => hnh c (Or.inl hc)),
        filter_of_no_hyphen _ (fun c hc => hnh c (Or.inr (Or.inl hc))),
        filter_of_no_hyphen _ (fun c hc => hnh c (Or.inr (Or.inr (Or.inl hc)))),
        filter_of_no_hyphen _ (fun c hc => hnh c (Or.inr (Or.inr (Or.inr (Or.inl hc))))),
        filter_of_no_hyphen _ (fun c hc => hnh c (Or.inr (Or.inr (Or.inr (Or.inr hc)))))]
    have hdec : (hexDecodePairs (A ++ (B ++ (C ++ (D ++ E))))).length = 16 := by
      rw [hexDecodePairs_length_of_hex _ (by
        intro c hc
        apply haux
        simp only [List.mem_append] at hc
        tauto)]
      simp only [List.length_append, hA, hB, hC, hD, hE]
    simp only [uuidFromString]
    rw [if_neg (fun hne => hne hL), hstrip, if_pos hdec]
    rfl
  · intro hne
    simp only [uuidFromString]
    rw [if_pos hne]
  · simp only [uuidFromString]
    split
    · next hL => simp [hL]
    · next hL =>
      have hL' : s.length = 36 := by omega
      split
      · next hd => simp [hL', hd]
      · next hd => simp [hL', hd]

/-- Witness for C8: the canonical zero UUID string is accepted, and a
2-character string is rejected. -/
theorem uuidFromString_spec_witness :
    (uuidFromString (("00000000-0000-1000-8000-000000000000").toList)).isSome = true ∧
    uuidFromString (("22").toList) = none :=
  ⟨(uuidFromString_spec _).1 ⟨("00000000").toList, ("0000").toList, ("1000").toList,
      ("8000").toList, ("000000000000").toList,
      by decide, by decide, by decide, by decide, by decide, by decide, by decide⟩,
   (uuidFromString_spec _).2.1 (by decide)⟩
